import Mathlib

/-!
# Verification of the enkiTS task scheduler core

Shallow embedding of `src/src/TaskScheduler.cpp`.

The embedding has three layers, each translated from the C++ source:

* the partitioning loop of `TaskScheduler::AddTaskSetToPipe` (lines 180-201),
  both as a ranges-only view (`partitionLoopFuel`) and as a trace of the atomic
  actions it performs on the completion counter, the pipe and the event
  (`addTaskSetToPipeTrace`);
* the sequential pipe model: per-thread pipes are lists of `TaskInfo` entries
  with the owner reading at the front (`WriterTryReadFront`) and thieves at the
  back (`ReaderTryReadBack`); `tryRunTask` is `TaskScheduler::TryRunTask`
  (lines 139-166), `waitforAllFuel` is `TaskScheduler::WaitforAll`
  (lines 222-238), `waitforTaskSetFuel` is `TaskScheduler::WaitforTaskSet`
  (lines 206-220);
* the lifecycle fields touched by `StartThreads` (81-109), `StopThreads`
  (111-137), `Initialize` (265-275), `GetNumTaskThreads` (248-251), the
  destructor (257-263) and `WaitforAllAndShutdown` (240-246).

All machine integers in the source are `uint32_t`; every quantity modelled
here stays below `2^32` because it is bounded by the submitted `set_size`,
so `Nat` without explicit wrap-around is a faithful translation.  The
completion counter is modelled as `Int` because the claims discuss whether it
can become negative.  Unbounded C++ `while` loops become fuel recursion; each
use is paired with a proof that the fuel passed is sufficient, so the fuel
clause never changes observable behaviour.
-/

namespace EnkiTS

/-! ## Partitioner: ranges-only view of `AddTaskSetToPipe` (lines 180-201) -/

/-- The partitioning loop of `TaskScheduler::AddTaskSetToPipe`, recording only
the half-open ranges `[partition.start, partition.end)` emitted per iteration.
The three occurrences of `if numToRun > rangeLeft then rangeLeft else numToRun`
are the clamped `numToRun` of line 185-188 (the clamp persists into the next
iteration, which the recursive call reflects by passing the clamped value).
`fuel` bounds the iteration count; callers pass `fuel = rangeLeft`, which is
sufficient because the loop decreases `rangeLeft` by at least one per
iteration whenever `numToRun ≥ 1`, which line 181 guarantees. -/
def partitionLoopFuel : Nat → Nat → Nat → Nat → List (Nat × Nat)
  | 0, _, _, _ => []
  | fuel + 1, setSize, numToRun, rangeLeft =>
    if rangeLeft = 0 then []
    else
      (setSize - rangeLeft,
        setSize - rangeLeft + (if numToRun > rangeLeft then rangeLeft else numToRun)) ::
        partitionLoopFuel fuel setSize
          (if numToRun > rangeLeft then rangeLeft else numToRun)
          (rangeLeft - (if numToRun > rangeLeft then rangeLeft else numToRun))

/-- The partitions produced by `TaskScheduler::AddTaskSetToPipe` for a task
set with `m_SetSize = setSize` when `m_NumPartitions = numPartitions`:
`numToRun = m_SetSize / m_NumPartitions` (line 180), raised to `1` when zero
(line 181), and `rangeLeft` starts at `partition.end - partition.start
= setSize - 0` (lines 173-174, 182). -/
def addTaskSetPartitions (setSize numPartitions : Nat) : List (Nat × Nat) :=
  partitionLoopFuel setSize setSize
    (if setSize / numPartitions = 0 then 1 else setSize / numPartitions)
    setSize

/-- `Chained l a b` says that `l` is a list of nonempty half-open ranges that
tile `[a, b)` exactly: consecutive, pairwise disjoint and covering. -/
def Chained : List (Nat × Nat) → Nat → Nat → Prop
  | [], a, b => a = b
  | (s, e) :: rest, a, b => s = a ∧ a < e ∧ Chained rest e b

/-! ## Trace view of `AddTaskSetToPipe` (lines 169-204)

The loop body performs, in source order: `AtomicAdd(&m_CompletionCount, +1)`
(line 194), the push attempt `WriterTryWriteFront` (line 195) and, if the push
fails, `EventSignal` (line 197), `ExecuteRange` on the calling thread
(line 198) and `--m_CompletionCount` (line 199).  After the loop a final
`EventSignal` fires (line 202).  Whether the i-th push succeeds depends on the
concurrent pipe occupancy, so it is an oracle parameter `pushOk`. -/

/-- One atomic action of the submission path. -/
inductive SubmitEvent where
  | incCC : SubmitEvent
  | decCC : SubmitEvent
  | pushAttempt (rangeStart rangeEnd : Nat) (ok : Bool) : SubmitEvent
  | signal : SubmitEvent
  | execInline (rangeStart rangeEnd threadNum : Nat) : SubmitEvent
  deriving DecidableEq

/-- Trace of the partition loop of `AddTaskSetToPipe` (lines 183-201); same
control flow as `partitionLoopFuel`, with the per-iteration atomic actions
recorded in source order. -/
def submitLoopTrace (pushOk : Nat → Bool) (setSize threadNum : Nat) :
    Nat → Nat → Nat → Nat → List SubmitEvent
  | 0, _, _, _ => []
  | fuel + 1, numToRun, rangeLeft, pushIdx =>
    if rangeLeft = 0 then []
    else
      SubmitEvent.incCC ::
        SubmitEvent.pushAttempt (setSize - rangeLeft)
          (setSize - rangeLeft + (if numToRun > rangeLeft then rangeLeft else numToRun))
          (pushOk pushIdx) ::
        ((if pushOk pushIdx then []
          else
            [SubmitEvent.signal,
             SubmitEvent.execInline (setSize - rangeLeft)
               (setSize - rangeLeft + (if numToRun > rangeLeft then rangeLeft else numToRun))
               threadNum,
             SubmitEvent.decCC]) ++
          submitLoopTrace pushOk setSize threadNum fuel
            (if numToRun > rangeLeft then rangeLeft else numToRun)
            (rangeLeft - (if numToRun > rangeLeft then rangeLeft else numToRun))
            (pushIdx + 1))

/-- Full trace of `TaskScheduler::AddTaskSetToPipe`: the loop trace followed by
the final `EventSignal` of line 202.  `m_CompletionCount` is `0` when the trace
starts (line 177). -/
def addTaskSetToPipeTrace (pushOk : Nat → Bool) (threadNum setSize numPartitions : Nat) :
    List SubmitEvent :=
  submitLoopTrace pushOk setSize threadNum setSize
    (if setSize / numPartitions = 0 then 1 else setSize / numPartitions)
    setSize 0 ++ [SubmitEvent.signal]

/-- Effect of one submission event on `m_CompletionCount`. -/
def ccDelta : SubmitEvent → Int
  | SubmitEvent.incCC => 1
  | SubmitEvent.decCC => -1
  | _ => 0

/-- Value of `m_CompletionCount` after a trace, starting from `0` (line 177). -/
def ccValue (l : List SubmitEvent) : Int :=
  (l.map ccDelta).sum

/-- Number of successful push attempts in a trace. -/
def cntOkPush (l : List SubmitEvent) : Nat :=
  l.countP fun e =>
    match e with
    | SubmitEvent.pushAttempt _ _ ok => ok
    | _ => false

/-- The ranges handed to `WriterTryWriteFront`, in order. -/
def pushRanges (l : List SubmitEvent) : List (Nat × Nat) :=
  l.filterMap fun e =>
    match e with
    | SubmitEvent.pushAttempt s t _ => some (s, t)
    | _ => none

/-- How many times the completion counter transitions from a nonzero value to
zero along a trace. -/
def reachesZeroCount (l : List SubmitEvent) : Nat :=
  (List.range l.length).countP fun i =>
    decide (ccValue (l.take (i + 1)) = 0 ∧ ccValue (l.take i) ≠ 0)

/-- Checks that every `pushAttempt` in the list is immediately preceded by an
`incCC`; `prev` is the event just before the list (`none` at the start of the
trace). -/
def pushesPrecededByIncAux : Option SubmitEvent → List SubmitEvent → Bool
  | _, [] => true
  | prev, e :: rest =>
    (match e with
     | SubmitEvent.pushAttempt _ _ _ => decide (prev = some SubmitEvent.incCC)
     | _ => true) && pushesPrecededByIncAux (some e) rest

/-- Checks that every failed push attempt is immediately followed by exactly
the compensation sequence of lines 196-200: `EventSignal`, inline
`ExecuteRange` of the same partition on the calling thread, then
`--m_CompletionCount`. -/
def failedPushesCompensated (threadNum : Nat) : List SubmitEvent → Bool
  | [] => true
  | SubmitEvent.pushAttempt s e false :: SubmitEvent.signal ::
      SubmitEvent.execInline s' e' t' :: SubmitEvent.decCC :: rest =>
    decide (s' = s) && decide (e' = e) && decide (t' = threadNum) &&
      failedPushesCompensated threadNum rest
  | SubmitEvent.pushAttempt _ _ false :: _ => false
  | _ :: rest => failedPushesCompensated threadNum rest

/-! ## Sequential pipe model: `TryRunTask`, `WaitforAll`, `WaitforTaskSet`

A pipe entry is a `TaskSetInfo` (TaskScheduler.cpp lines 37-41): a reference to
the task set (modelled by a task identifier) plus the partition range.  A pipe
is a list with the most recently pushed entry at the head, so the owner's
`WriterTryReadFront` takes the head and a thief's `ReaderTryReadBack` takes the
last element.  The scheduler state carries the pipe array, the per-task
completion counters and the record of executed `(entry, threadNum)`
invocations of `ExecuteRange`. -/

/-- A `TaskSetInfo` pipe entry (lines 37-41). -/
structure TaskInfo where
  taskId : Nat
  rangeStart : Nat
  rangeEnd : Nat
  deriving DecidableEq

/-- Owner-side front read of a pipe (`WriterTryReadFront`): the most recently
pushed entry. -/
def writerTryReadFront (pipe : List TaskInfo) : Option (TaskInfo × List TaskInfo) :=
  match pipe with
  | [] => none
  | x :: rest => some (x, rest)

/-- Thief-side back read of a pipe (`ReaderTryReadBack`): the oldest entry. -/
def readerTryReadBack (pipe : List TaskInfo) : Option (TaskInfo × List TaskInfo) :=
  match pipe.getLast? with
  | none => none
  | some x => some (x, pipe.dropLast)

/-- Scheduler state for the sequential execution model. -/
structure SchedulerState where
  pipes : List (List TaskInfo)
  cc : Nat → Int
  executed : List (TaskInfo × Nat)

/-- The stealing loop of `TaskScheduler::TryRunTask` (lines 147-155):
`checkOtherThread` starts at `(threadNum + 1) % m_NumThreads`, advances by one
modulo `m_NumThreads`, and the loop stops when it reaches `threadNum` or a
back-read succeeds.  `fuel` bounds iterations; `tryRunTask` passes
`fuel = m_NumThreads`, sufficient since the index returns to `threadNum` after
at most `m_NumThreads - 1` steps. -/
def stealLoopFuel : Nat → Nat → Nat → List (List TaskInfo) →
    Option TaskInfo × List (List TaskInfo)
  | 0, _, _, pipes => (none, pipes)
  | fuel + 1, threadNum, checkOtherThread, pipes =>
    if checkOtherThread = threadNum then (none, pipes)
    else
      match readerTryReadBack (pipes.getD checkOtherThread []) with
      | some (x, rest) => (some x, pipes.set checkOtherThread rest)
      | none =>
        stealLoopFuel fuel threadNum ((checkOtherThread + 1) % pipes.length) pipes

/-- `TaskScheduler::TryRunTask` (lines 139-166): front-read the own pipe; if
that fails and `m_NumThreads` is nonzero, run the stealing loop; if an entry
was obtained, `ExecuteRange(partition, threadNum)` runs and the task's
`m_CompletionCount` is decremented (lines 157-162); returns `bHaveTask`. -/
def tryRunTask (threadNum : Nat) (s : SchedulerState) : Bool × SchedulerState :=
  match writerTryReadFront (s.pipes.getD threadNum []) with
  | some (x, rest) =>
    (true,
      { pipes := s.pipes.set threadNum rest,
        cc := fun id => if id = x.taskId then s.cc id - 1 else s.cc id,
        executed := s.executed ++ [(x, threadNum)] })
  | none =>
    if s.pipes.length ≠ 0 then
      match stealLoopFuel s.pipes.length threadNum
          ((threadNum + 1) % s.pipes.length) s.pipes with
      | (some x, pipes2) =>
        (true,
          { pipes := pipes2,
            cc := fun id => if id = x.taskId then s.cc id - 1 else s.cc id,
            executed := s.executed ++ [(x, threadNum)] })
      | (none, pipes2) => (false, { s with pipes := pipes2 })
    else (false, s)

/-- The survey loop of `TaskScheduler::WaitforAll` (lines 229-236): scan the
given pipes in index order and return `true` at the first nonempty one (the
source breaks out of the `for` loop there).  The loop runs over threads
`1 … m_NumThreads - 1`, i.e. over the list `pipes.drop 1`, never surveying
pipe `0`. -/
def anyPipeNonempty : List (List TaskInfo) → Bool
  | [] => false
  | p :: rest => if p.isEmpty then anyPipeNonempty rest else true

/-- `TaskScheduler::WaitforAll` (lines 222-238): repeat { `TryRunTask` on the
calling thread (result ignored); survey pipes `1 … m_NumThreads - 1`; exit if
all surveyed pipes are empty }.  `fuel` bounds iterations; any
`fuel > ` total number of queued entries is sufficient (each continuing
iteration removes one entry). -/
def waitforAllFuel (threadNum : Nat) : Nat → SchedulerState → SchedulerState
  | 0, s => s
  | fuel + 1, s =>
    if anyPipeNonempty ((tryRunTask threadNum s).2.pipes.drop 1) then
      waitforAllFuel threadNum fuel (tryRunTask threadNum s).2
    else (tryRunTask threadNum s).2

/-- `TaskScheduler::WaitforTaskSet` (lines 206-220), non-null branch:
`while (m_CompletionCount) TryRunTask(gtl_threadNum)`. -/
def waitforTaskSetFuel (threadNum taskId : Nat) : Nat → SchedulerState → SchedulerState
  | 0, s => s
  | fuel + 1, s =>
    if s.cc taskId ≠ 0 then
      waitforTaskSetFuel threadNum taskId fuel (tryRunTask threadNum s).2
    else s

/-- Total number of queued entries across all pipes. -/
def totalPipes (pipes : List (List TaskInfo)) : Nat :=
  (pipes.map List.length).sum

/-! ## Lifecycle model: fields touched by `StartThreads` / `StopThreads` /
`Initialize` / `GetNumTaskThreads` / destructor / `WaitforAllAndShutdown` -/

/-- The scheduler fields read or written by the lifecycle functions.  Pointer
members are modelled by allocation flags; `m_NumThreadsRunning` counts the
spawned worker threads. -/
structure LifecycleState where
  bHaveThreads : Bool
  bRunning : Bool
  numThreads : Nat
  numThreadsRunning : Nat
  numPartitions : Nat
  threadArraysAllocated : Bool
  eventOpen : Bool
  pipesAllocated : Bool
  deriving DecidableEq

/-- `TaskScheduler::StartThreads` (lines 81-109): no-op when threads already
exist; otherwise sets `m_bRunning`, creates the event, allocates the thread
arrays, spawns threads `1 … m_NumThreads - 1` (each incrementing
`m_NumThreadsRunning`), sets `m_NumPartitions = m_NumThreads *
(m_NumThreads - 1)` (line 105) and records `m_bHaveThreads = true`. -/
def startThreads (s : LifecycleState) : LifecycleState :=
  if s.bHaveThreads then s
  else
    { s with
      bRunning := true
      eventOpen := true
      threadArraysAllocated := true
      numThreadsRunning := s.numThreadsRunning + (s.numThreads - 1)
      numPartitions := s.numThreads * (s.numThreads - 1)
      bHaveThreads := true }

/-- `TaskScheduler::StopThreads` (lines 111-137): no-op when no threads exist;
otherwise clears `m_bRunning`, waits (when `bWait_`) for the workers to exit —
the wait loop of lines 117-121 terminates with `m_NumThreadsRunning = 0` —
terminates the threads, zeroes `m_NumThreads` (line 128), frees the thread
arrays, closes the event and clears `m_bHaveThreads`. -/
def stopThreads (bWait : Bool) (s : LifecycleState) : LifecycleState :=
  if s.bHaveThreads then
    { s with
      bRunning := false
      numThreadsRunning := if bWait then 0 else s.numThreadsRunning
      numThreads := 0
      threadArraysAllocated := false
      eventOpen := false
      bHaveThreads := false }
  else s

/-- `TaskScheduler::Initialize(uint32_t)` (lines 265-275): `StopThreads(true)`,
delete and reallocate the pipe array, set `m_NumThreads`, then
`StartThreads()`. -/
def initializeL (numThreads : Nat) (s : LifecycleState) : LifecycleState :=
  startThreads
    { stopThreads true s with numThreads := numThreads, pipesAllocated := true }

/-- `TaskScheduler::GetNumTaskThreads` (lines 248-251). -/
def getNumTaskThreads (s : LifecycleState) : Nat :=
  s.numThreads

/-- The destructor `TaskScheduler::~TaskScheduler` (lines 257-263):
`StopThreads(true)` then release the pipe array. -/
def destructorL (s : LifecycleState) : LifecycleState :=
  { stopThreads true s with pipesAllocated := false }

/-- `TaskScheduler::WaitforAllAndShutdown` (lines 240-246): `WaitforAll` (which
touches none of the lifecycle fields), then `StopThreads(true)`, then release
the pipe array. -/
def waitforAllAndShutdownL (s : LifecycleState) : LifecycleState :=
  { stopThreads true s with pipesAllocated := false }

/-! ## Lemmas about `Chained` -/

lemma chained_le : ∀ (l : List (Nat × Nat)) (a b : Nat), Chained l a b → a ≤ b := by
  intro l
  induction l with
  | nil => intro a b h; exact Nat.le_of_eq h
  | cons p rest ih =>
    intro a b h
    obtain ⟨s, e⟩ := p
    obtain ⟨h1, h2, h3⟩ := h
    exact Nat.le_trans (Nat.le_of_lt h2) (ih e b h3)

lemma chained_sum : ∀ (l : List (Nat × Nat)) (a b : Nat), Chained l a b →
    (l.map fun p => p.2 - p.1).sum = b - a := by
  intro l
  induction l with
  | nil =>
    intro a b h
    have hab : a = b := h
    simp [hab]
  | cons p rest ih =>
    intro a b h
    obtain ⟨s, e⟩ := p
    obtain ⟨h1, h2, h3⟩ := h
    have hle := chained_le rest e b h3
    subst h1
    simp only [List.map_cons, List.sum_cons, ih e b h3]
    omega

lemma chained_mem : ∀ (l : List (Nat × Nat)) (a b : Nat), Chained l a b →
    ∀ p ∈ l, a ≤ p.1 ∧ p.1 < p.2 ∧ p.2 ≤ b := by
  intro l
  induction l with
  | nil => intro a b _ p hp; cases hp
  | cons q rest ih =>
    intro a b h p hp
    obtain ⟨s, e⟩ := q
    obtain ⟨h1, h2, h3⟩ := h
    subst h1
    rcases List.mem_cons.mp hp with hp | hp
    · subst hp
      exact ⟨Nat.le_refl _, h2, chained_le rest e b h3⟩
    · have := ih e b h3 p hp
      exact ⟨Nat.le_trans (Nat.le_of_lt h2) this.1, this.2.1, this.2.2⟩

lemma chained_pairwise : ∀ (l : List (Nat × Nat)) (a b : Nat), Chained l a b →
    l.Pairwise fun p q => p.2 ≤ q.1 := by
  intro l
  induction l with
  | nil => intro a b _; exact List.Pairwise.nil
  | cons q rest ih =>
    intro a b h
    obtain ⟨s, e⟩ := q
    obtain ⟨h1, h2, h3⟩ := h
    exact List.Pairwise.cons (fun p hp => (chained_mem rest e b h3 p hp).1) (ih e b h3)

lemma chained_cover : ∀ (l : List (Nat × Nat)) (a b : Nat), Chained l a b →
    ∀ k, a ≤ k → k < b → ∃ p ∈ l, p.1 ≤ k ∧ k < p.2 := by
  intro l
  induction l with
  | nil =>
    intro a b h k h1 h2
    have hab : a = b := h
    omega
  | cons q rest ih =>
    intro a b h k h1 h2
    obtain ⟨s, e⟩ := q
    obtain ⟨hs, h3, h4⟩ := h
    by_cases hk : k < e
    · exact ⟨(s, e), List.mem_cons_self _ _, by omega, hk⟩
    · obtain ⟨p, hp, hp2⟩ := ih e b h4 k (Nat.le_of_not_lt hk) h2
      exact ⟨p, List.mem_cons_of_mem _ hp, hp2⟩

/-! ## Lemmas about the partition loop -/

lemma partitionLoopFuel_zero_range (fuel setSize numToRun : Nat) :
    partitionLoopFuel fuel setSize numToRun 0 = [] := by
  cases fuel <;> simp [partitionLoopFuel]

lemma partitionLoopFuel_chained (fuel : Nat) : ∀ setSize numToRun rangeLeft,
    1 ≤ numToRun → rangeLeft ≤ fuel → rangeLeft ≤ setSize →
    Chained (partitionLoopFuel fuel setSize numToRun rangeLeft)
      (setSize - rangeLeft) setSize := by
  induction fuel with
  | zero =>
    intro s nr rl _ h2 _
    have : rl = 0 := Nat.le_zero.mp h2
    subst this
    simp [partitionLoopFuel, Chained]
  | succ fuel ih =>
    intro s nr rl h1 h2 h3
    by_cases h0 : rl = 0
    · subst h0; simp [partitionLoopFuel, Chained]
    · have hrl : 1 ≤ rl := Nat.one_le_iff_ne_zero.mpr h0
      simp only [partitionLoopFuel, if_neg h0, gt_iff_lt]
      have hn1 : 1 ≤ (if rl < nr then rl else nr) := by split <;> omega
      have hnle : (if rl < nr then rl else nr) ≤ rl := by split <;> omega
      have hrec := ih s (if rl < nr then rl else nr)
        (rl - (if rl < nr then rl else nr)) hn1 (by omega) (by omega)
      have heq : s - (rl - (if rl < nr then rl else nr)) =
          s - rl + (if rl < nr then rl else nr) := by omega
      rw [heq] at hrec
      exact ⟨rfl, by omega, hrec⟩

lemma partitionLoopFuel_sizes (fuel : Nat) : ∀ setSize numToRun rangeLeft,
    1 ≤ numToRun → rangeLeft ≤ fuel →
    (∀ p ∈ (partitionLoopFuel fuel setSize numToRun rangeLeft).dropLast,
        p.2 - p.1 = numToRun) ∧
    (∀ p, (partitionLoopFuel fuel setSize numToRun rangeLeft).getLast? = some p →
        0 < p.2 - p.1 ∧ p.2 - p.1 ≤ numToRun) := by
  induction fuel with
  | zero =>
    intro s nr rl _ h2
    have : rl = 0 := Nat.le_zero.mp h2
    subst this
    simp [partitionLoopFuel]
  | succ fuel ih =>
    intro s nr rl h1 h2
    by_cases h0 : rl = 0
    · subst h0; simp [partitionLoopFuel]
    · have hrl : 1 ≤ rl := Nat.one_le_iff_ne_zero.mpr h0
      simp only [partitionLoopFuel, if_neg h0, gt_iff_lt]
      have hn1 : 1 ≤ (if rl < nr then rl else nr) := by split <;> omega
      have hnle : (if rl < nr then rl else nr) ≤ rl := by split <;> omega
      have hnnr : (if rl < nr then rl else nr) ≤ nr := by split <;> omega
      rcases hrest : partitionLoopFuel fuel s (if rl < nr then rl else nr)
          (rl - (if rl < nr then rl else nr)) with _ | ⟨q, rest2⟩
      · constructor
        · intro p hp
          simp at hp
        · intro p hp
          simp only [List.getLast?_singleton, Option.some.injEq] at hp
          subst hp
          omega
      · -- the tail is nonempty, so the clamp did not fire: numToRun ≤ rangeLeft
        have hclamp : ¬ rl < nr := by
          intro hc
          have hz : rl - (if rl < nr then rl else nr) = 0 := by simp [hc]
          rw [hz, partitionLoopFuel_zero_range] at hrest
          cases hrest
        have hiheq := ih s (if rl < nr then rl else nr)
          (rl - (if rl < nr then rl else nr)) hn1 (by omega)
        rw [hrest] at hiheq
        constructor
        · intro p hp
          rw [List.dropLast_cons₂] at hp
          rcases List.mem_cons.mp hp with hp | hp
          · subst hp
            simp [hclamp]
          · have := hiheq.1 p hp
            simpa [hclamp] using this
        · intro p hp
          rw [List.getLast?_cons_cons] at hp
          have := hiheq.2 p hp
          simpa [hclamp] using this

/-! ## Lemmas about the submission trace -/

lemma ccDelta_inc : ccDelta SubmitEvent.incCC = 1 := rfl

lemma ccDelta_dec : ccDelta SubmitEvent.decCC = -1 := rfl

lemma ccDelta_push (a b : Nat) (ok : Bool) :
    ccDelta (SubmitEvent.pushAttempt a b ok) = 0 := rfl

lemma ccDelta_signal : ccDelta SubmitEvent.signal = 0 := rfl

lemma ccDelta_exec (a b t : Nat) : ccDelta (SubmitEvent.execInline a b t) = 0 := rfl

lemma one_le_chunk (N P : Nat) : 1 ≤ (if N / P = 0 then 1 else N / P) := by
  by_cases hz : N / P = 0
  · simp [hz]
  · simpa [hz] using Nat.one_le_iff_ne_zero.mpr hz

lemma pushRanges_append (l1 l2 : List SubmitEvent) :
    pushRanges (l1 ++ l2) = pushRanges l1 ++ pushRanges l2 := by
  simp [pushRanges]

lemma ccValue_append (l1 l2 : List SubmitEvent) :
    ccValue (l1 ++ l2) = ccValue l1 + ccValue l2 := by
  simp [ccValue]

lemma cntOkPush_append (l1 l2 : List SubmitEvent) :
    cntOkPush (l1 ++ l2) = cntOkPush l1 + cntOkPush l2 := by
  simp [cntOkPush, List.countP_append]

lemma pushRanges_submitLoopTrace (pushOk : Nat → Bool) (s tn : Nat) :
    ∀ fuel nr rl idx,
      pushRanges (submitLoopTrace pushOk s tn fuel nr rl idx) =
        partitionLoopFuel fuel s nr rl := by
  intro fuel
  induction fuel with
  | zero => intro nr rl idx; simp [submitLoopTrace, partitionLoopFuel, pushRanges]
  | succ fuel ih =>
    intro nr rl idx
    by_cases h0 : rl = 0
    · simp [submitLoopTrace, partitionLoopFuel, pushRanges, h0]
    · simp only [submitLoopTrace, partitionLoopFuel, if_neg h0, gt_iff_lt]
      by_cases hok : pushOk idx = true
      · simp [pushRanges, hok]
        exact ih _ _ _
      · simp [pushRanges, hok]
        exact ih _ _ _

lemma ccValue_submitLoopTrace (pushOk : Nat → Bool) (s tn : Nat) :
    ∀ fuel nr rl idx,
      ccValue (submitLoopTrace pushOk s tn fuel nr rl idx) =
        (cntOkPush (submitLoopTrace pushOk s tn fuel nr rl idx) : Int) := by
  intro fuel
  induction fuel with
  | zero => intro nr rl idx; simp [submitLoopTrace, ccValue, cntOkPush]
  | succ fuel ih =>
    intro nr rl idx
    by_cases h0 : rl = 0
    · simp [submitLoopTrace, h0, ccValue, cntOkPush]
    · have hih := ih (if rl < nr then rl else nr)
        (rl - (if rl < nr then rl else nr)) (idx + 1)
      simp only [ccValue, cntOkPush] at hih
      simp only [submitLoopTrace, if_neg h0, gt_iff_lt]
      by_cases hok : pushOk idx = true
      · simp [ccValue, cntOkPush, ccDelta, hok, List.countP_cons]
        omega
      · simp [ccValue, cntOkPush, ccDelta, hok, List.countP_cons]
        omega

lemma ccValue_take_submitLoopTrace (pushOk : Nat → Bool) (s tn : Nat) :
    ∀ fuel nr rl idx n,
      0 ≤ ccValue ((submitLoopTrace pushOk s tn fuel nr rl idx).take n) := by
  intro fuel
  induction fuel with
  | zero => intro nr rl idx n; simp [submitLoopTrace, ccValue]
  | succ fuel ih =>
    intro nr rl idx n
    by_cases h0 : rl = 0
    · simp [submitLoopTrace, h0, ccValue]
    · have hih := ih (if rl < nr then rl else nr)
        (rl - (if rl < nr then rl else nr)) (idx + 1)
      simp only [ccValue] at hih
      simp only [submitLoopTrace, if_neg h0, gt_iff_lt]
      by_cases hok : pushOk idx = true
      · rw [if_pos hok, List.nil_append]
        rcases n with _ | n
        · simp [ccValue]
        rcases n with _ | n
        · simp [ccValue, ccDelta_inc]
        simp only [List.take_succ_cons, ccValue, List.map_cons, List.sum_cons,
          ccDelta_inc, ccDelta_push]
        have := hih n
        omega
      · rw [if_neg hok]
        simp only [List.cons_append, List.nil_append]
        rcases n with _ | n
        · simp [ccValue]
        rcases n with _ | n
        · simp [ccValue, ccDelta_inc]
        rcases n with _ | n
        · simp [ccValue, ccDelta_inc, ccDelta_push]
        rcases n with _ | n
        · simp [ccValue, ccDelta_inc, ccDelta_push, ccDelta_signal]
        rcases n with _ | n
        · simp [ccValue, ccDelta_inc, ccDelta_push, ccDelta_signal, ccDelta_exec]
        simp only [List.take_succ_cons, ccValue, List.map_cons, List.sum_cons,
          ccDelta_inc, ccDelta_push, ccDelta_signal, ccDelta_exec, ccDelta_dec]
        have := hih n
        omega

lemma pushesAux_submitLoopTrace (pushOk : Nat → Bool) (s tn : Nat) :
    ∀ fuel nr rl idx prev,
      pushesPrecededByIncAux prev
        (submitLoopTrace pushOk s tn fuel nr rl idx ++ [SubmitEvent.signal]) = true := by
  intro fuel
  induction fuel with
  | zero => intro nr rl idx prev; simp [submitLoopTrace, pushesPrecededByIncAux]
  | succ fuel ih =>
    intro nr rl idx prev
    by_cases h0 : rl = 0
    · simp [submitLoopTrace, h0, pushesPrecededByIncAux]
    · simp only [submitLoopTrace, if_neg h0, gt_iff_lt]
      by_cases hok : pushOk idx = true
      · simp [hok, pushesPrecededByIncAux, ih]
      · simp [hok, pushesPrecededByIncAux, ih]

lemma failedPushes_submitLoopTrace (pushOk : Nat → Bool) (s tn : Nat) :
    ∀ fuel nr rl idx suffix, failedPushesCompensated tn suffix = true →
      failedPushesCompensated tn
        (submitLoopTrace pushOk s tn fuel nr rl idx ++ suffix) = true := by
  intro fuel
  induction fuel with
  | zero => intro nr rl idx suffix h; simpa [submitLoopTrace] using h
  | succ fuel ih =>
    intro nr rl idx suffix h
    by_cases h0 : rl = 0
    · simpa [submitLoopTrace, h0] using h
    · simp only [submitLoopTrace, if_neg h0, gt_iff_lt]
      by_cases hok : pushOk idx = true
      · simp [hok, failedPushesCompensated, ih _ _ _ _ h]
      · simp [hok, failedPushesCompensated, ih _ _ _ _ h]

/-! ## C1: partitions tile `[0, N)` -/

/-- C1: for every submission with `set_size = N ≥ 1` and `num_partitions = P ≥ 1`,
the partitions produced by `AddTaskSetToPipe` are ordered, pairwise disjoint
sub-ranges whose union is exactly `[0, N)`, the sum of `range.end − range.start`
over the emitted partitions equals `N`, and the ranges handed to
`WriterTryWriteFront` are exactly these partitions, for every push-success
oracle and every calling thread. -/
theorem submit_partitions_tile (N P : Nat) (hN : 1 ≤ N) (hP : 1 ≤ P) :
    ((addTaskSetPartitions N P).map fun p => p.2 - p.1).sum = N ∧
    (addTaskSetPartitions N P).Pairwise (fun p q => p.2 ≤ q.1) ∧
    (∀ k, (∃ p ∈ addTaskSetPartitions N P, p.1 ≤ k ∧ k < p.2) ↔ k < N) ∧
    ∀ (pushOk : Nat → Bool) (tn : Nat),
      pushRanges (addTaskSetToPipeTrace pushOk tn N P) = addTaskSetPartitions N P := by
  have hch : Chained (addTaskSetPartitions N P) 0 N := by
    have h := partitionLoopFuel_chained N N
      (if N / P = 0 then 1 else N / P) N (one_le_chunk N P) le_rfl le_rfl
    simpa [addTaskSetPartitions] using h
  refine ⟨?_, chained_pairwise _ _ _ hch, ?_, ?_⟩
  · have := chained_sum _ _ _ hch
    simpa using this
  · intro k
    constructor
    · rintro ⟨p, hp, hp1, hp2⟩
      have := chained_mem _ _ _ hch p hp
      omega
    · intro hk
      exact chained_cover _ _ _ hch k (Nat.zero_le _) hk
  · intro pushOk tn
    rw [addTaskSetToPipeTrace, pushRanges_append, pushRanges_submitLoopTrace]
    simp [pushRanges, addTaskSetPartitions]

/-- Witness for C1 at `N = 1000`, `P = 12`. -/
theorem submit_partitions_tile_witness :
    1 ≤ (1000 : Nat) ∧ 1 ≤ (12 : Nat) ∧
      (((addTaskSetPartitions 1000 12).map fun p => p.2 - p.1).sum = 1000 ∧
       (addTaskSetPartitions 1000 12).Pairwise (fun p q => p.2 ≤ q.1) ∧
       (∀ k, (∃ p ∈ addTaskSetPartitions 1000 12, p.1 ≤ k ∧ k < p.2) ↔ k < 1000) ∧
       ∀ (pushOk : Nat → Bool) (tn : Nat),
         pushRanges (addTaskSetToPipeTrace pushOk tn 1000 12) =
           addTaskSetPartitions 1000 12) :=
  ⟨by norm_num, by norm_num,
    submit_partitions_tile 1000 12 (by norm_num) (by norm_num)⟩

/-! ## C3: chunk sizes -/

/-- C3 counterexample: for `T = 4` (`P = 12`) and `N = 1000`, the loop emits a
final partition of size `4` (the remainder, clamped at line 187), so it is not
the case that every emitted partition has size in `{83, 84}` as the claim
states. -/
theorem chunk_sizes_counterexample :
    ∃ p ∈ addTaskSetPartitions 1000 12, p.2 - p.1 ≠ 83 ∧ p.2 - p.1 ≠ 84 := by
  decide

/-- C3 amended: every emitted partition except possibly the last has size
`chunk = max(1, ⌊N / P⌋)` (written here as the source computes it); the final
partition is the remainder: its size is positive and at most `chunk`.  For
`T = 4` (`P = 12`) and `N = 1000` the executed ranges partition `[0, 1000)`
into `13` chunks: twelve of size `83` and a final chunk of size `4`. -/
theorem chunk_sizes_amended (N P : Nat) (hN : 1 ≤ N) (hP : 1 ≤ P) :
    (∀ p ∈ (addTaskSetPartitions N P).dropLast,
        p.2 - p.1 = (if N / P = 0 then 1 else N / P)) ∧
    (∀ p, (addTaskSetPartitions N P).getLast? = some p →
        0 < p.2 - p.1 ∧ p.2 - p.1 ≤ (if N / P = 0 then 1 else N / P)) ∧
    ((addTaskSetPartitions 1000 12).map fun p => p.2 - p.1) =
      [83, 83, 83, 83, 83, 83, 83, 83, 83, 83, 83, 83, 4] := by
  have h := partitionLoopFuel_sizes N N
    (if N / P = 0 then 1 else N / P) N (one_le_chunk N P) le_rfl
  refine ⟨?_, ?_, by decide⟩
  · intro p hp
    exact h.1 p (by simpa [addTaskSetPartitions] using hp)
  · intro p hp
    exact h.2 p (by simpa [addTaskSetPartitions] using hp)

/-- Witness for C3 (amended) at `N = 1000`, `P = 12`. -/
theorem chunk_sizes_amended_witness :
    1 ≤ (1000 : Nat) ∧ 1 ≤ (12 : Nat) ∧
      ((∀ p ∈ (addTaskSetPartitions 1000 12).dropLast,
          p.2 - p.1 = (if 1000 / 12 = 0 then 1 else 1000 / 12)) ∧
       (∀ p, (addTaskSetPartitions 1000 12).getLast? = some p →
          0 < p.2 - p.1 ∧ p.2 - p.1 ≤ (if 1000 / 12 = 0 then 1 else 1000 / 12)) ∧
       ((addTaskSetPartitions 1000 12).map fun p => p.2 - p.1) =
         [83, 83, 83, 83, 83, 83, 83, 83, 83, 83, 83, 83, 4]) :=
  ⟨by norm_num, by norm_num,
    chunk_sizes_amended 1000 12 (by norm_num) (by norm_num)⟩

/-! ## C5: completion-counter discipline of the submission path -/

/-- C5 counterexample: for `N = 2`, `P = 2` submitted from thread `0` with
every push failing (pipe full), the completion counter reaches zero twice
within the single submission — each inline-executed partition returns it to
zero — refuting "it reaches 0 at most once per submission". -/
theorem completion_count_zero_twice_counterexample :
    reachesZeroCount (addTaskSetToPipeTrace (fun _ => false) 0 2 2) = 2 ∧
    ¬ reachesZeroCount (addTaskSetToPipeTrace (fun _ => false) 0 2 2) ≤ 1 := by
  decide

/-- C5 amended: along the submission trace, `completion_count` is incremented
by `1` immediately before each push attempt, its running value is non-negative
at every point, and on return it equals the number of successfully pushed
partitions; it may however reach zero more than once per submission (once per
inline-executed partition when no pushed partition is outstanding). -/
theorem completion_count_amended (pushOk : Nat → Bool) (tn N P : Nat) (hP : 1 ≤ P) :
    (∀ n, 0 ≤ ccValue ((addTaskSetToPipeTrace pushOk tn N P).take n)) ∧
    pushesPrecededByIncAux none (addTaskSetToPipeTrace pushOk tn N P) = true ∧
    ccValue (addTaskSetToPipeTrace pushOk tn N P) =
      (cntOkPush (addTaskSetToPipeTrace pushOk tn N P) : Int) := by
  refine ⟨?_, ?_, ?_⟩
  · intro n
    rw [addTaskSetToPipeTrace, List.take_append_eq_append_take, ccValue_append]
    have h1 := ccValue_take_submitLoopTrace pushOk N tn N
      (if N / P = 0 then 1 else N / P) N 0 n
    have h2 : 0 ≤ ccValue ([SubmitEvent.signal].take
        (n - (submitLoopTrace pushOk N tn N
          (if N / P = 0 then 1 else N / P) N 0).length)) := by
      rcases hm : n - (submitLoopTrace pushOk N tn N
          (if N / P = 0 then 1 else N / P) N 0).length with _ | m
      · simp [ccValue]
      · simp [ccValue, ccDelta_signal]
    omega
  · exact pushesAux_submitLoopTrace pushOk N tn N
      (if N / P = 0 then 1 else N / P) N 0 none
  · rw [addTaskSetToPipeTrace, ccValue_append, cntOkPush_append,
      ccValue_submitLoopTrace]
    simp [ccValue, cntOkPush, ccDelta_signal]

/-- Witness for C5 (amended) at `N = 2`, `P = 2`, all pushes failing. -/
theorem completion_count_amended_witness :
    1 ≤ (2 : Nat) ∧
      ((∀ n, 0 ≤ ccValue ((addTaskSetToPipeTrace (fun _ => false) 0 2 2).take n)) ∧
       pushesPrecededByIncAux none (addTaskSetToPipeTrace (fun _ => false) 0 2 2) = true ∧
       ccValue (addTaskSetToPipeTrace (fun _ => false) 0 2 2) =
         (cntOkPush (addTaskSetToPipeTrace (fun _ => false) 0 2 2) : Int)) :=
  ⟨by norm_num, completion_count_amended (fun _ => false) 0 2 2 (by norm_num)⟩

/-! ## C6: failed pushes are compensated -/

/-- C6: whenever a push fails during `AddTaskSetToPipe` (pipe full), the very
next actions are `EventSignal`, inline `ExecuteRange` of that same partition
on the calling thread, and a decrement of `completion_count` by `1`; the
submission path never reports the failure (the function returns `void`), and
on return `completion_count` equals the number of successfully pushed
partitions, so every failed push is fully compensated. -/
theorem failed_push_compensated (pushOk : Nat → Bool) (tn N P : Nat) (hP : 1 ≤ P) :
    failedPushesCompensated tn (addTaskSetToPipeTrace pushOk tn N P) = true ∧
    ccValue (addTaskSetToPipeTrace pushOk tn N P) =
      (cntOkPush (addTaskSetToPipeTrace pushOk tn N P) : Int) := by
  constructor
  · exact failedPushes_submitLoopTrace pushOk N tn N
      (if N / P = 0 then 1 else N / P) N 0 [SubmitEvent.signal] (by rfl)
  · rw [addTaskSetToPipeTrace, ccValue_append, cntOkPush_append,
      ccValue_submitLoopTrace]
    simp [ccValue, cntOkPush, ccDelta_signal]

/-- Witness for C6 at `N = 3`, `P = 2`, pushes failing on odd indices. -/
theorem failed_push_compensated_witness :
    1 ≤ (2 : Nat) ∧
      (failedPushesCompensated 0
         (addTaskSetToPipeTrace (fun i => decide (i % 2 = 0)) 0 3 2) = true ∧
       ccValue (addTaskSetToPipeTrace (fun i => decide (i % 2 = 0)) 0 3 2) =
         (cntOkPush (addTaskSetToPipeTrace (fun i => decide (i % 2 = 0)) 0 3 2) : Int)) :=
  ⟨by norm_num, failed_push_compensated (fun i => decide (i % 2 = 0)) 0 3 2 (by norm_num)⟩

/-! ## C8: empty task set -/

/-- C8: a submission with `set_size = 0` produces zero partitions, performs no
push attempt, executes nothing inline, and its whole trace is the single final
`EventSignal`, leaving `completion_count = 0`; a subsequent
`WaitforTaskSet` on a task whose counter is zero returns at once, leaving the
scheduler state — pipes, counters and executed record — unchanged. -/
theorem submit_empty_set (pushOk : Nat → Bool) (tn P : Nat) (hP : 1 ≤ P) :
    addTaskSetPartitions 0 P = [] ∧
    addTaskSetToPipeTrace pushOk tn 0 P = [SubmitEvent.signal] ∧
    ccValue (addTaskSetToPipeTrace pushOk tn 0 P) = 0 ∧
    ∀ (tn2 taskId fuel : Nat) (s : SchedulerState), s.cc taskId = 0 →
      waitforTaskSetFuel tn2 taskId fuel s = s := by
  refine ⟨?_, ?_, ?_, ?_⟩
  · simp [addTaskSetPartitions, partitionLoopFuel]
  · simp [addTaskSetToPipeTrace, submitLoopTrace]
  · simp [addTaskSetToPipeTrace, submitLoopTrace, ccValue, ccDelta_signal]
  · intro tn2 taskId fuel s hcc
    cases fuel with
    | zero => rfl
    | succ fuel => simp [waitforTaskSetFuel, hcc]

/-- Witness for C8 at `P = 12`. -/
theorem submit_empty_set_witness :
    1 ≤ (12 : Nat) ∧
      (addTaskSetPartitions 0 12 = [] ∧
       addTaskSetToPipeTrace (fun _ => true) 0 0 12 = [SubmitEvent.signal] ∧
       ccValue (addTaskSetToPipeTrace (fun _ => true) 0 0 12) = 0 ∧
       ∀ (tn2 taskId fuel : Nat) (s : SchedulerState), s.cc taskId = 0 →
         waitforTaskSetFuel tn2 taskId fuel s = s) :=
  ⟨by norm_num, submit_empty_set (fun _ => true) 0 12 (by norm_num)⟩

/-! ## C2: `m_NumPartitions` at initialisation -/

/-- C2: evaluating the initialisation code at the failing input `T = 1`.
`StartThreads` (line 105) sets `m_NumPartitions = m_NumThreads *
(m_NumThreads - 1)` with no special case, so `Initialize(1)` leaves
`m_NumPartitions = 1 * 0 = 0` — not `1` as the claim states — and the division
`m_SetSize / m_NumPartitions` at line 180 of `AddTaskSetToPipe` becomes a
division by zero (undefined behaviour in C++).  For `T ≥ 2` the claimed value
`T * (T - 1) ≥ 1` does hold. -/
theorem init_single_thread_zero_partitions (s : LifecycleState) :
    (initializeL 1 s).numPartitions = 0 ∧
    getNumTaskThreads (initializeL 1 s) = 1 ∧
    ∀ (T : Nat) (s' : LifecycleState), 2 ≤ T →
      (initializeL T s').numPartitions = T * (T - 1) ∧
      1 ≤ (initializeL T s').numPartitions := by
  refine ⟨?_, ?_, ?_⟩
  · by_cases h : s.bHaveThreads <;>
      simp [initializeL, startThreads, stopThreads, h]
  · by_cases h : s.bHaveThreads <;>
      simp [initializeL, startThreads, stopThreads, getNumTaskThreads, h]
  · intro T s' hT
    constructor
    · by_cases h : s'.bHaveThreads <;>
        simp [initializeL, startThreads, stopThreads, h]
    · by_cases h : s'.bHaveThreads <;>
        simp [initializeL, startThreads, stopThreads, h] <;>
        exact Nat.le_mul_of_pos_right T (by omega) |>.trans' (by omega)

/-! ## C9: shutdown is idempotent -/

/-- C9: `StopThreads` is idempotent — after a first call (with any wait flag)
a second call (with any wait flag) is a no-op on every modelled field, because
the first call clears `m_bHaveThreads` and the whole body is guarded by it. -/
theorem stopThreads_idempotent (s : LifecycleState) (w w' : Bool) :
    stopThreads w' (stopThreads w s) = stopThreads w s := by
  by_cases h : s.bHaveThreads <;> simp [stopThreads, h]

/-! ## C10: `GetNumTaskThreads` after shutdown -/

/-- C10: after `StopThreads` runs with threads previously started
(`m_bHaveThreads = true`), `GetNumTaskThreads` returns `0` (line 128 zeroes
`m_NumThreads`), on the direct path, the destructor path and the
`WaitforAllAndShutdown` path alike; the next `Initialize(k)` makes it return
`k` again. -/
theorem numTaskThreads_after_shutdown (s : LifecycleState) (w : Bool)
    (h : s.bHaveThreads = true) :
    getNumTaskThreads (stopThreads w s) = 0 ∧
    getNumTaskThreads (destructorL s) = 0 ∧
    getNumTaskThreads (waitforAllAndShutdownL s) = 0 ∧
    ∀ (k : Nat) (s' : LifecycleState), getNumTaskThreads (initializeL k s') = k := by
  refine ⟨?_, ?_, ?_, ?_⟩
  · simp [stopThreads, getNumTaskThreads, h]
  · simp [destructorL, stopThreads, getNumTaskThreads, h]
  · simp [waitforAllAndShutdownL, stopThreads, getNumTaskThreads, h]
  · intro k s'
    by_cases h' : s'.bHaveThreads <;>
      simp [initializeL, startThreads, stopThreads, getNumTaskThreads, h']

/-- Witness for C10 at a concrete started scheduler state. -/
theorem numTaskThreads_after_shutdown_witness :
    (LifecycleState.mk true true 4 3 12 true true true).bHaveThreads = true ∧
      (getNumTaskThreads
          (stopThreads true (LifecycleState.mk true true 4 3 12 true true true)) = 0 ∧
       getNumTaskThreads (destructorL (LifecycleState.mk true true 4 3 12 true true true)) = 0 ∧
       getNumTaskThreads
          (waitforAllAndShutdownL (LifecycleState.mk true true 4 3 12 true true true)) = 0 ∧
       ∀ (k : Nat) (s' : LifecycleState), getNumTaskThreads (initializeL k s') = k) :=
  ⟨rfl, numTaskThreads_after_shutdown (LifecycleState.mk true true 4 3 12 true true true)
    true rfl⟩

/-! ## Lemmas about the stealing loop -/

lemma offset_mod_ne (T tn i : Nat) (htn : tn < T) (h1 : 1 ≤ i) (h2 : i < T) :
    (tn + i) % T ≠ tn := by
  intro h
  have hmod : tn % T = (tn + i) % T := by rw [h, Nat.mod_eq_of_lt htn]
  have hdvd : T ∣ (tn + i) - tn :=
    (Nat.modEq_iff_dvd' (Nat.le_add_right tn i)).mp hmod
  rw [Nat.add_sub_cancel_left] at hdvd
  have := Nat.le_of_dvd (by omega) hdvd
  omega

lemma stealLoop_none_res : ∀ (fuel tn check : Nat)
    (pipes p' : List (List TaskInfo)),
    stealLoopFuel fuel tn check pipes = (none, p') → p' = pipes := by
  intro fuel
  induction fuel with
  | zero =>
    intro tn check pipes p' h
    simp only [stealLoopFuel] at h
    injection h with h1 h2
    exact h2.symm
  | succ fuel ih =>
    intro tn check pipes p' h
    simp only [stealLoopFuel] at h
    by_cases hc : check = tn
    · rw [if_pos hc] at h
      injection h with h1 h2
      exact h2.symm
    · rw [if_neg hc] at h
      split at h
      · simp at h
      · exact ih _ _ _ _ h

lemma stealLoop_success : ∀ (fuel tn check : Nat)
    (pipes p' : List (List TaskInfo)) (x : TaskInfo),
    stealLoopFuel fuel tn check pipes = (some x, p') →
    ∃ j, j < pipes.length ∧ (pipes.getD j []).getLast? = some x ∧
      p' = pipes.set j ((pipes.getD j []).dropLast) := by
  intro fuel
  induction fuel with
  | zero =>
    intro tn check pipes p' x h
    simp only [stealLoopFuel] at h
    simp at h
  | succ fuel ih =>
    intro tn check pipes p' x h
    simp only [stealLoopFuel] at h
    by_cases hc : check = tn
    · rw [if_pos hc] at h
      simp at h
    · rw [if_neg hc] at h
      split at h
      · rename_i x0 rest heq
        injection h with h1 h2
        injection h1 with h1
        subst h1
        refine ⟨check, ?_, ?_, ?_⟩
        · by_contra hlen
          have : pipes.getD check [] = [] :=
            List.getD_eq_default pipes [] (by omega)
          rw [this] at heq
          simp [readerTryReadBack] at heq
        · rw [readerTryReadBack] at heq
          split at heq
          · cases heq
          · rename_i y hy
            injection heq with heq
            injection heq with heq1 heq2
            rw [hy, heq1]
        · rw [readerTryReadBack] at heq
          split at heq
          · cases heq
          · rename_i y hy
            injection heq with heq
            injection heq with heq1 heq2
            rw [← h2, ← heq2]
      · exact ih _ _ _ _ _ h

lemma stealLoop_first (T tn k : Nat) (pipes : List (List TaskInfo)) (x : TaskInfo)
    (hT : pipes.length = T) (htn : tn < T) (hk1 : 1 ≤ k) (hk2 : k ≤ T - 1)
    (hempty : ∀ j, 1 ≤ j → j < k → pipes.getD ((tn + j) % T) [] = [])
    (hlast : (pipes.getD ((tn + k) % T) []).getLast? = some x) :
    ∀ fuel i, 1 ≤ i → i ≤ k → k - i < fuel →
      stealLoopFuel fuel tn ((tn + i) % T) pipes =
        (some x, pipes.set ((tn + k) % T) ((pipes.getD ((tn + k) % T) []).dropLast)) := by
  intro fuel
  induction fuel with
  | zero => intro i h1 h2 h3; omega
  | succ fuel ih =>
    intro i h1 h2 h3
    have hne : (tn + i) % T ≠ tn := offset_mod_ne T tn i htn h1 (by omega)
    simp only [stealLoopFuel, if_neg hne]
    by_cases hik : i = k
    · subst hik
      rw [readerTryReadBack, hlast]
    · have hemp : pipes.getD ((tn + i) % T) [] = [] := hempty i h1 (by omega)
      rw [hemp, readerTryReadBack]
      simp only [List.getLast?_nil, hT]
      have hidx : (((tn + i) % T) + 1) % T = (tn + (i + 1)) % T := by
        rw [Nat.mod_add_mod, Nat.add_assoc]
      rw [hidx]
      exact ih (i + 1) (by omega) (by omega) (by omega)

lemma stealLoop_steals (T tn j : Nat) (pipes : List (List TaskInfo))
    (hT : pipes.length = T) (htn : tn < T) (hj : j < T) (hjn : j ≠ tn)
    (hne : pipes.getD j [] ≠ []) :
    (stealLoopFuel T tn ((tn + 1) % T) pipes).1 ≠ none := by
  obtain ⟨k0, hk01, hk02, hk03⟩ : ∃ k, 1 ≤ k ∧ k ≤ T - 1 ∧ (tn + k) % T = j := by
    by_cases hcase : tn < j
    · refine ⟨j - tn, by omega, by omega, ?_⟩
      rw [show tn + (j - tn) = j by omega, Nat.mod_eq_of_lt hj]
    · refine ⟨T - tn + j, by omega, by omega, ?_⟩
      rw [show tn + (T - tn + j) = T + j by omega, Nat.add_mod_left,
        Nat.mod_eq_of_lt hj]
  have hP : ∃ k, 1 ≤ k ∧ k ≤ T - 1 ∧ pipes.getD ((tn + k) % T) [] ≠ [] :=
    ⟨k0, hk01, hk02, by rw [hk03]; exact hne⟩
  classical
  set km := Nat.find hP with hkm
  obtain ⟨hkm1, hkm2, hkm3⟩ := Nat.find_spec hP
  obtain ⟨x, hx⟩ : ∃ x, (pipes.getD ((tn + km) % T) []).getLast? = some x := by
    have := List.getLast?_isSome.mpr hkm3
    exact Option.isSome_iff_exists.mp this
  have hempty : ∀ j', 1 ≤ j' → j' < km → pipes.getD ((tn + j') % T) [] = [] := by
    intro j' hj1 hj2
    have hmin := Nat.find_min hP (show j' < Nat.find hP by omega)
    by_contra hcon
    exact hmin ⟨hj1, by omega, hcon⟩
  have := stealLoop_first T tn km pipes x hT htn hkm1 hkm2 hempty hx T 1
    le_rfl hkm1 (by omega)
  rw [this]
  simp

/-! ## Lemmas about `tryRunTask` -/

lemma writerTryReadFront_none (pipe : List TaskInfo) :
    writerTryReadFront pipe = none ↔ pipe = [] := by
  cases pipe <;> simp [writerTryReadFront]

lemma totalPipes_set : ∀ (pipes : List (List TaskInfo)) (j : Nat) (r : List TaskInfo),
    j < pipes.length →
    totalPipes (pipes.set j r) + (pipes.getD j []).length =
      totalPipes pipes + r.length := by
  intro pipes
  induction pipes with
  | nil => intro j r h; simp at h
  | cons p rest ih =>
    intro j r h
    cases j with
    | zero => simp [totalPipes]; omega
    | succ j =>
      have := ih j r (by simpa using h)
      simp only [List.set_cons_succ, totalPipes, List.map_cons, List.sum_cons,
        List.getD_cons_succ] at this ⊢
      omega

/-- Case analysis of `TryRunTask`: own front read succeeds; or the steal loop
succeeds; or everything fails with the state unchanged. -/
lemma tryRunTask_spec (tn : Nat) (s : SchedulerState) :
    (∃ x rest, s.pipes.getD tn [] = x :: rest ∧
      tryRunTask tn s = (true,
        { pipes := s.pipes.set tn rest,
          cc := fun id => if id = x.taskId then s.cc id - 1 else s.cc id,
          executed := s.executed ++ [(x, tn)] })) ∨
    (s.pipes.getD tn [] = [] ∧ s.pipes.length ≠ 0 ∧
      ∃ x pipes2,
        stealLoopFuel s.pipes.length tn ((tn + 1) % s.pipes.length) s.pipes =
          (some x, pipes2) ∧
        tryRunTask tn s = (true,
          { pipes := pipes2,
            cc := fun id => if id = x.taskId then s.cc id - 1 else s.cc id,
            executed := s.executed ++ [(x, tn)] })) ∨
    (s.pipes.getD tn [] = [] ∧ s.pipes.length ≠ 0 ∧
      stealLoopFuel s.pipes.length tn ((tn + 1) % s.pipes.length) s.pipes =
        (none, s.pipes) ∧
      tryRunTask tn s = (false, s)) ∨
    (s.pipes.length = 0 ∧ s.pipes.getD tn [] = [] ∧
      tryRunTask tn s = (false, s)) := by
  rcases hfront : writerTryReadFront (s.pipes.getD tn []) with _ | ⟨x, rest⟩
  · have hown : s.pipes.getD tn [] = [] := (writerTryReadFront_none _).mp hfront
    by_cases hT : s.pipes.length ≠ 0
    · rcases heq : stealLoopFuel s.pipes.length tn
          ((tn + 1) % s.pipes.length) s.pipes with ⟨o, pipes2⟩
      rcases o with _ | x
      · right; right; left
        have hp2 := stealLoop_none_res _ _ _ _ _ heq
        subst hp2
        refine ⟨hown, hT, rfl, ?_⟩
        rw [tryRunTask, hfront, if_pos hT, heq]
      · right; left
        refine ⟨hown, hT, x, pipes2, rfl, ?_⟩
        rw [tryRunTask, hfront, if_pos hT, heq]
    · right; right; right
      refine ⟨by omega, hown, ?_⟩
      rw [tryRunTask, hfront, if_neg hT]
  · left
    have hcons : s.pipes.getD tn [] = x :: rest := by
      cases hp : s.pipes.getD tn [] with
      | nil => rw [hp] at hfront; simp [writerTryReadFront] at hfront
      | cons y ys =>
        rw [hp] at hfront
        simp only [writerTryReadFront, Option.some.injEq, Prod.mk.injEq] at hfront
        rw [hfront.1, hfront.2]
    refine ⟨x, rest, hcons, ?_⟩
    rw [tryRunTask, hfront]

lemma tryRunTask_pipes_length (tn : Nat) (s : SchedulerState) :
    (tryRunTask tn s).2.pipes.length = s.pipes.length := by
  rcases tryRunTask_spec tn s with ⟨x, rest, hc, hr⟩ |
    ⟨ho, hT, x, pipes2, heq, hr⟩ | ⟨ho, hT, heq, hr⟩ | ⟨hT, ho, hr⟩
  · simp [hr]
  · obtain ⟨j, hj, hl, hp⟩ := stealLoop_success _ _ _ _ _ _ heq
    simp [hr, hp]
  · simp [hr]
  · simp [hr]

lemma tryRunTask_false (tn : Nat) (s : SchedulerState) (htn : tn < s.pipes.length)
    (h : (tryRunTask tn s).1 = false) :
    (tryRunTask tn s).2 = s ∧
      ∀ j, j < s.pipes.length → s.pipes.getD j [] = [] := by
  rcases tryRunTask_spec tn s with ⟨x, rest, hc, hr⟩ |
    ⟨ho, hT, x, pipes2, heq, hr⟩ | ⟨ho, hT, heq, hr⟩ | ⟨hT, ho, hr⟩
  · rw [hr] at h; cases h
  · rw [hr] at h; cases h
  · refine ⟨by rw [hr], ?_⟩
    intro j hj
    by_cases hjtn : j = tn
    · rw [hjtn]; exact ho
    · by_contra hcon
      have := stealLoop_steals s.pipes.length tn j s.pipes rfl htn hj hjtn hcon
      rw [heq] at this
      simp at this
  · omega

lemma tryRunTask_entries (tn : Nat) (s : SchedulerState)
    (h : (tryRunTask tn s).1 = true) :
    totalPipes (tryRunTask tn s).2.pipes + 1 = totalPipes s.pipes := by
  rcases tryRunTask_spec tn s with ⟨x, rest, hc, hr⟩ |
    ⟨ho, hT, x, pipes2, heq, hr⟩ | ⟨ho, hT, heq, hr⟩ | ⟨hT, ho, hr⟩
  · have htn : tn < s.pipes.length := by
      by_contra hlen
      have hd : s.pipes.getD tn [] = [] := List.getD_eq_default s.pipes [] (by omega)
      rw [hd] at hc
      cases hc
    have hts := totalPipes_set s.pipes tn rest htn
    rw [hc] at hts
    simp only [List.length_cons] at hts
    rw [hr]
    simp only
    omega
  · obtain ⟨j, hj, hl, hp⟩ := stealLoop_success _ _ _ _ _ _ heq
    have hne : s.pipes.getD j [] ≠ [] := by
      intro hcon
      rw [hcon] at hl
      simp at hl
    have hlen1 : 1 ≤ (s.pipes.getD j []).length := by
      cases hq : s.pipes.getD j [] with
      | nil => exact absurd hq hne
      | cons y ys => simp [hq]
    have hts := totalPipes_set s.pipes j ((s.pipes.getD j []).dropLast) hj
    have hdl : ((s.pipes.getD j []).dropLast).length =
        (s.pipes.getD j []).length - 1 := List.length_dropLast _
    rw [hr, hp]
    simp only
    omega
  · rw [hr] at h; cases h
  · rw [hr] at h; cases h

/-! ## C7: characterization of `TryRunTask` -/

/-- C7: `TryRunTask(threadNum)` first attempts a front read on pipe
`threadNum`; if the pipe holds `x :: xs`, it executes `x` on `threadNum`,
decrements that task's completion count, leaves every other pipe untouched and
returns `true`.  Only if the own pipe is empty does it steal: it walks pipes
`(threadNum + 1) % T, (threadNum + 2) % T, …` and pops the back of the first
nonempty one — so a pipe at offset `k` is only read after offsets `1 … k - 1`
were found empty, the walk never returns to the own pipe — executes that entry
on `threadNum`, decrements that task's completion count and returns `true`.
If every pipe is empty it changes nothing and returns `false`; it returns
`true` exactly when an entry was executed. -/
theorem tryRunTask_characterization (s : SchedulerState) (tn : Nat)
    (htn : tn < s.pipes.length) :
    (∀ x xs, s.pipes.getD tn [] = x :: xs →
      tryRunTask tn s = (true,
        { pipes := s.pipes.set tn xs,
          cc := fun id => if id = x.taskId then s.cc id - 1 else s.cc id,
          executed := s.executed ++ [(x, tn)] })) ∧
    (s.pipes.getD tn [] = [] →
      ∀ k x, 1 ≤ k → k ≤ s.pipes.length - 1 →
        (∀ j, 1 ≤ j → j < k →
          s.pipes.getD ((tn + j) % s.pipes.length) [] = []) →
        (s.pipes.getD ((tn + k) % s.pipes.length) []).getLast? = some x →
        tryRunTask tn s = (true,
          { pipes := s.pipes.set ((tn + k) % s.pipes.length)
              ((s.pipes.getD ((tn + k) % s.pipes.length) []).dropLast),
            cc := fun id => if id = x.taskId then s.cc id - 1 else s.cc id,
            executed := s.executed ++ [(x, tn)] })) ∧
    ((∀ j, j < s.pipes.length → s.pipes.getD j [] = []) →
      tryRunTask tn s = (false, s)) := by
  refine ⟨?_, ?_, ?_⟩
  · intro x xs hx
    rcases tryRunTask_spec tn s with ⟨x', rest', hc, hr⟩ |
      ⟨ho, _, _, _, _, _⟩ | ⟨ho, _, _, _⟩ | ⟨_, ho, _⟩
    · rw [hx] at hc
      injection hc with hc1 hc2
      subst hc1
      subst hc2
      exact hr
    · rw [hx] at ho; cases ho
    · rw [hx] at ho; cases ho
    · rw [hx] at ho; cases ho
  · intro ho k x hk1 hk2 hempty hlast
    have hsteal := stealLoop_first s.pipes.length tn k s.pipes x rfl htn hk1 hk2
      hempty hlast s.pipes.length 1 le_rfl hk1 (by omega)
    rcases tryRunTask_spec tn s with ⟨x', rest', hc, hr⟩ |
      ⟨_, _, x', pipes2, heq, hr⟩ | ⟨_, _, heq, hr⟩ | ⟨hT, _, _⟩
    · rw [ho] at hc; cases hc
    · rw [heq] at hsteal
      injection hsteal with h1 h2
      injection h1 with h1
      subst h1
      subst h2
      exact hr
    · rw [heq] at hsteal
      cases hsteal
    · omega
  · intro hall
    rcases tryRunTask_spec tn s with ⟨x', rest', hc, hr⟩ |
      ⟨_, _, x', pipes2, heq, hr⟩ | ⟨_, _, _, hr⟩ | ⟨_, _, hr⟩
    · rw [hall tn htn] at hc
      cases hc
    · obtain ⟨j, hj, hl, _⟩ := stealLoop_success _ _ _ _ _ _ heq
      rw [hall j hj] at hl
      cases hl
    · exact hr
    · exact hr

/-- Witness for C7 on a two-pipe state where the own pipe is empty and pipe 1
holds one entry. -/
theorem tryRunTask_characterization_witness :
    0 < (SchedulerState.mk [[], [TaskInfo.mk 5 0 10]] (fun _ => 1) []).pipes.length ∧
      ((∀ x xs,
          (SchedulerState.mk [[], [TaskInfo.mk 5 0 10]] (fun _ => 1) []).pipes.getD 0 [] =
            x :: xs →
          tryRunTask 0 (SchedulerState.mk [[], [TaskInfo.mk 5 0 10]] (fun _ => 1) []) =
            (true,
              { pipes := (SchedulerState.mk [[], [TaskInfo.mk 5 0 10]]
                  (fun _ => 1) []).pipes.set 0 xs,
                cc := fun id => if id = x.taskId then
                  (SchedulerState.mk [[], [TaskInfo.mk 5 0 10]] (fun _ => 1) []).cc id - 1
                  else (SchedulerState.mk [[], [TaskInfo.mk 5 0 10]] (fun _ => 1) []).cc id,
                executed := (SchedulerState.mk [[], [TaskInfo.mk 5 0 10]]
                  (fun _ => 1) []).executed ++ [(x, 0)] })) ∧
       ((SchedulerState.mk [[], [TaskInfo.mk 5 0 10]] (fun _ => 1) []).pipes.getD 0 [] =
          [] →
        ∀ k x, 1 ≤ k →
          k ≤ (SchedulerState.mk [[], [TaskInfo.mk 5 0 10]]
            (fun _ => 1) []).pipes.length - 1 →
          (∀ j, 1 ≤ j → j < k →
            (SchedulerState.mk [[], [TaskInfo.mk 5 0 10]] (fun _ => 1) []).pipes.getD
              ((0 + j) % (SchedulerState.mk [[], [TaskInfo.mk 5 0 10]]
                (fun _ => 1) []).pipes.length) [] = []) →
          ((SchedulerState.mk [[], [TaskInfo.mk 5 0 10]] (fun _ => 1) []).pipes.getD
              ((0 + k) % (SchedulerState.mk [[], [TaskInfo.mk 5 0 10]]
                (fun _ => 1) []).pipes.length) []).getLast? = some x →
          tryRunTask 0 (SchedulerState.mk [[], [TaskInfo.mk 5 0 10]] (fun _ => 1) []) =
            (true,
              { pipes := (SchedulerState.mk [[], [TaskInfo.mk 5 0 10]]
                  (fun _ => 1) []).pipes.set
                    ((0 + k) % (SchedulerState.mk [[], [TaskInfo.mk 5 0 10]]
                      (fun _ => 1) []).pipes.length)
                    (((SchedulerState.mk [[], [TaskInfo.mk 5 0 10]]
                      (fun _ => 1) []).pipes.getD
                        ((0 + k) % (SchedulerState.mk [[], [TaskInfo.mk 5 0 10]]
                          (fun _ => 1) []).pipes.length) []).dropLast),
                cc := fun id => if id = x.taskId then
                  (SchedulerState.mk [[], [TaskInfo.mk 5 0 10]] (fun _ => 1) []).cc id - 1
                  else (SchedulerState.mk [[], [TaskInfo.mk 5 0 10]] (fun _ => 1) []).cc id,
                executed := (SchedulerState.mk [[], [TaskInfo.mk 5 0 10]]
                  (fun _ => 1) []).executed ++ [(x, 0)] })) ∧
       ((∀ j, j < (SchedulerState.mk [[], [TaskInfo.mk 5 0 10]]
            (fun _ => 1) []).pipes.length →
          (SchedulerState.mk [[], [TaskInfo.mk 5 0 10]] (fun _ => 1) []).pipes.getD j [] =
            []) →
        tryRunTask 0 (SchedulerState.mk [[], [TaskInfo.mk 5 0 10]] (fun _ => 1) []) =
          (false, SchedulerState.mk [[], [TaskInfo.mk 5 0 10]] (fun _ => 1) []))) :=
  ⟨by decide,
    tryRunTask_characterization
      (SchedulerState.mk [[], [TaskInfo.mk 5 0 10]] (fun _ => 1) []) 0 (by decide)⟩

/-! ## C4: `WaitforAll` -/

lemma anyPipeNonempty_false : ∀ (l : List (List TaskInfo)),
    anyPipeNonempty l = false → ∀ q ∈ l, q = [] := by
  intro l
  induction l with
  | nil => intro _ q hq; cases hq
  | cons p rest ih =>
    intro h q hq
    rw [anyPipeNonempty] at h
    split at h
    · rename_i hemp
      rcases List.mem_cons.mp hq with hq | hq
      · rw [hq]; exact List.isEmpty_iff.mp hemp
      · exact ih h q hq
    · cases h

lemma anyPipeNonempty_true : ∀ (l : List (List TaskInfo)),
    anyPipeNonempty l = true → ∃ q ∈ l, q ≠ [] := by
  intro l
  induction l with
  | nil => intro h; cases h
  | cons p rest ih =>
    intro h
    rw [anyPipeNonempty] at h
    split at h
    · rename_i hemp
      obtain ⟨q, hq, hqne⟩ := ih h
      exact ⟨q, List.mem_cons_of_mem _ hq, hqne⟩
    · rename_i hemp
      refine ⟨p, List.mem_cons_self _ _, ?_⟩
      intro hcon
      exact hemp (by rw [hcon]; rfl)

lemma all_empty_getD : ∀ (l : List (List TaskInfo)), (∀ q ∈ l, q = []) →
    ∀ j, l.getD j [] = [] := by
  intro l
  induction l with
  | nil => intro _ j; simp
  | cons p rest ih =>
    intro h j
    cases j with
    | zero => simpa using h p (List.mem_cons_self _ _)
    | succ j =>
      rw [List.getD_cons_succ]
      exact ih (fun q hq => h q (List.mem_cons_of_mem _ hq)) j

lemma exists_nonempty_getD : ∀ (l : List (List TaskInfo)), (∃ q ∈ l, q ≠ []) →
    ∃ j, j < l.length ∧ l.getD j [] ≠ [] := by
  intro l
  induction l with
  | nil => rintro ⟨q, hq, _⟩; cases hq
  | cons p rest ih =>
    rintro ⟨q, hq, hqne⟩
    rcases List.mem_cons.mp hq with hq | hq
    · refine ⟨0, by simp, ?_⟩
      rw [List.getD_cons_zero, ← hq]
      exact hqne
    · obtain ⟨j, hj1, hj2⟩ := ih ⟨q, hq, hqne⟩
      refine ⟨j + 1, by simpa using Nat.succ_lt_succ hj1, ?_⟩
      rw [List.getD_cons_succ]
      exact hj2

lemma getD_succ_drop (l : List (List TaskInfo)) (t : Nat) :
    l.getD (t + 1) [] = (l.drop 1).getD t [] := by
  cases l with
  | nil => simp
  | cons p rest => simp [List.getD_cons_succ]

lemma drop_one_all_empty (p : List (List TaskInfo))
    (h : ∀ q ∈ p.drop 1, q = []) :
    ∀ t, 1 ≤ t → t < p.length → p.getD t [] = [] := by
  intro t h1 h2
  rw [show t = t - 1 + 1 by omega, getD_succ_drop]
  exact all_empty_getD _ h _

lemma drop_one_exists_nonempty (p : List (List TaskInfo))
    (h : ∃ q ∈ p.drop 1, q ≠ []) :
    ∃ t, 1 ≤ t ∧ t < p.length ∧ p.getD t [] ≠ [] := by
  obtain ⟨j, hj1, hj2⟩ := exists_nonempty_getD _ h
  have hjlen : j < p.length - 1 := by simpa [List.length_drop] using hj1
  refine ⟨j + 1, by omega, by omega, ?_⟩
  rw [getD_succ_drop]
  exact hj2

/-- C4 counterexample: `T = 2`, calling thread `0`, own pipe holds two
entries, pipe `1` empty.  `WaitforAll` runs one `TryRunTask` (which pops one
entry from the own pipe), surveys only pipe `1`, finds it empty and returns —
leaving an entry in the calling thread's own pipe that its next drain attempt
could have executed.  This refutes "terminate only when … the current
thread's own drain attempt found no work" and "on return the calling thread's
own pipe contains no entry". -/
theorem waitforAll_own_pipe_counterexample :
    (waitforAllFuel 0 5 (SchedulerState.mk
        [[TaskInfo.mk 1 0 1, TaskInfo.mk 1 1 2], []] (fun _ => 2) [])).pipes.getD 0 [] =
      [TaskInfo.mk 1 1 2] ∧
    (waitforAllFuel 0 5 (SchedulerState.mk
        [[TaskInfo.mk 1 0 1, TaskInfo.mk 1 1 2], []] (fun _ => 2) [])).pipes.getD 1 [] =
      [] ∧
    (waitforAllFuel 0 6 (SchedulerState.mk
        [[TaskInfo.mk 1 0 1, TaskInfo.mk 1 1 2], []] (fun _ => 2) [])).pipes.getD 0 [] =
      [TaskInfo.mk 1 1 2] ∧
    (tryRunTask 0 (waitforAllFuel 0 5 (SchedulerState.mk
        [[TaskInfo.mk 1 0 1, TaskInfo.mk 1 1 2], []] (fun _ => 2) []))).1 = true := by
  refine ⟨rfl, rfl, rfl, rfl⟩

/-- C4 amended: in the sequential model, `WaitforAll` loops `TryRunTask` and
returns only when every pipe with index in `[1, T)` is empty; the result of
the calling thread's drain attempt is ignored by the exit condition, so on
return the calling thread's own pipe (pipe `threadNum`, surveyed never when
`threadNum = 0`) may still hold entries. -/
theorem waitforAll_amended (tn : Nat) :
    ∀ (fuel : Nat) (s : SchedulerState), tn < s.pipes.length →
      totalPipes s.pipes < fuel →
      ∀ t, 1 ≤ t → t < (waitforAllFuel tn fuel s).pipes.length →
        (waitforAllFuel tn fuel s).pipes.getD t [] = [] := by
  intro fuel
  induction fuel with
  | zero => intro s h1 h2; omega
  | succ fuel ih =>
    intro s h1 h2
    rw [waitforAllFuel]
    cases hsur : anyPipeNonempty ((tryRunTask tn s).2.pipes.drop 1) with
    | false =>
      rw [if_neg Bool.false_ne_true]
      exact drop_one_all_empty _ (anyPipeNonempty_false _ hsur)
    | true =>
      rw [if_pos rfl]
      have hlen := tryRunTask_pipes_length tn s
      have hex := drop_one_exists_nonempty _ (anyPipeNonempty_true _ hsur)
      obtain ⟨u, hu1, hu2, hu3⟩ := hex
      cases hb : (tryRunTask tn s).1 with
      | false =>
        obtain ⟨hs, hall⟩ := tryRunTask_false tn s h1 hb
        rw [hs] at hu3 hu2
        exact absurd (hall u hu2) hu3
      | true =>
        have hent := tryRunTask_entries tn s hb
        exact ih (tryRunTask tn s).2 (by omega) (by omega)

/-- Witness for C4 (amended) on a concrete two-pipe state. -/
theorem waitforAll_amended_witness :
    (0 < (SchedulerState.mk [[TaskInfo.mk 1 0 1], [TaskInfo.mk 2 0 5]]
        (fun _ => 1) []).pipes.length ∧
     totalPipes (SchedulerState.mk [[TaskInfo.mk 1 0 1], [TaskInfo.mk 2 0 5]]
        (fun _ => 1) []).pipes < 3) ∧
      ∀ t, 1 ≤ t →
        t < (waitforAllFuel 0 3 (SchedulerState.mk
          [[TaskInfo.mk 1 0 1], [TaskInfo.mk 2 0 5]] (fun _ => 1) [])).pipes.length →
        (waitforAllFuel 0 3 (SchedulerState.mk
          [[TaskInfo.mk 1 0 1], [TaskInfo.mk 2 0 5]]
          (fun _ => 1) [])).pipes.getD t [] = [] :=
  ⟨⟨by decide, by decide⟩,
    waitforAll_amended 0 3
      (SchedulerState.mk [[TaskInfo.mk 1 0 1], [TaskInfo.mk 2 0 5]] (fun _ => 1) [])
      (by decide) (by decide)⟩

end EnkiTS
